import Mathlib

/-!
Shallow embedding of the LS-8 CPU simulator (`ls8/cpu.py`).

The CPU state is the quadruple of mutable fields of the Python `CPU` class:
`ram` (a Python list of 256 ints), `reg` (a list of 8 ints, index 7 = SP),
`pc`, and `fl`.  Python integers are unbounded, so `ram`/`reg` values and
`pc` are modelled as `Int`; `fl` is only ever `0` or the bitwise-or of
nonnegative constants, so it is a `Nat`.  Python list indexing (including
negative-index wraparound and `IndexError`) is modelled by `pyIdx`; every
operation that can raise returns `Option`, with `none` standing for an
uncaught Python exception.
-/

namespace LS8

/-- Python list-index semantics for a list of length `len`: a nonnegative
index must be `< len`; a negative index `i` means `len + i` when that is
nonnegative; anything else raises `IndexError` (`none`). -/
def pyIdx (len : Nat) (i : Int) : Option Nat :=
  if 0 ≤ i then
    if i < (len : Int) then some i.toNat else none
  else
    if 0 ≤ i + (len : Int) then some (i + (len : Int)).toNat else none

/-- Read `l[i]` with Python index semantics. -/
def pyGet (l : List Int) (i : Int) : Option Int :=
  (pyIdx l.length i).bind fun j => l[j]?

/-- Write `l[i] = v` with Python index semantics. -/
def pySet (l : List Int) (i : Int) (v : Int) : Option (List Int) :=
  (pyIdx l.length i).map fun j => l.set j v

/-- The mutable state of the Python `CPU` object (minus the wall-clock
`self.time`, which is factored out as a tick oracle in `run`). -/
structure CPUState where
  ram : List Int
  reg : List Int
  pc : Int
  fl : Nat
  deriving DecidableEq, Repr

/-- `CPU.ram_read`: read a stored value at the given address in memory. -/
def ram_read (s : CPUState) (address : Int) : Option Int :=
  pyGet s.ram address

/-- `CPU.ram_write`: store a value into memory at the given address. -/
def ram_write (s : CPUState) (address val : Int) : Option CPUState :=
  (pySet s.ram address val).map fun r => { s with ram := r }

/-- Write `self.reg[i] = v`. -/
def regSet (s : CPUState) (i : Int) (v : Int) : Option CPUState :=
  (pySet s.reg i v).map fun r => { s with reg := r }

/-- `CPU.alu`: ALU operations, keyed by the operation string exactly as in
the source.  `ADD`/`MUL` store the unreduced Python integer result (the
source performs no modular masking); `CMP` bitwise-ors a flag bit into
`fl`; an unsupported op raises (`none`). -/
def alu (s : CPUState) (op : String) (reg_a reg_b : Int) : Option CPUState := do
  let val_a ← pyGet s.reg reg_a
  let val_b ← pyGet s.reg reg_b
  if op = "ADD" then
    regSet s reg_a (val_a + val_b)
  else if op = "MUL" then
    regSet s reg_a (val_a * val_b)
  else if op = "CMP" then
    if val_a < val_b then
      some { s with fl := s.fl ||| 0b00000100 }
    else if val_a = val_b then
      some { s with fl := s.fl ||| 0b00000010 }
    else if val_a > val_b then
      some { s with fl := s.fl ||| 0b00000001 }
    else
      some s
  else
    none

/-- The data printed by `CPU.trace`: the PC, the three memory bytes at
`pc`, `pc+1`, `pc+2`, and the 8 register values. -/
structure TraceOut where
  tracePc : Int
  byte0 : Int
  byte1 : Int
  byte2 : Int
  regs : List Int
  deriving DecidableEq, Repr

/-- `CPU.trace`: collect the diagnostic dump.  Each `ram_read` may raise
`IndexError`, in which case nothing is printed (`none`). -/
def trace (s : CPUState) : Option TraceOut := do
  let b0 ← ram_read s s.pc
  let b1 ← ram_read s (s.pc + 1)
  let b2 ← ram_read s (s.pc + 2)
  let regs ← (List.range 8).mapM fun (i : Nat) => pyGet s.reg (i : Int)
  some { tracePc := s.pc, byte0 := b0, byte1 := b1, byte2 := b2, regs := regs }

/-- `CPU.push`: `val = some v` is the internal-call form (`push(value)`),
`val = none` the instruction form (operand register read at `pc+1`, and
`pc` advanced by 2).  Either way the value is written at `sp - 1` and
`reg[7]` is set to `sp - 1`. -/
def push (s : CPUState) (val : Option Int) : Option CPUState := do
  let sp ← pyGet s.reg 7
  match val with
  | some v => do
      let s ← ram_write s (sp - 1) v
      regSet s 7 (sp - 1)
  | none => do
      let reg_address ← ram_read s (s.pc + 1)
      let reg_val ← pyGet s.reg reg_address
      let s ← ram_write s (sp - 1) reg_val
      let s := { s with pc := s.pc + 2 }
      regSet s 7 (sp - 1)

/-- `CPU.pop`: with `return_val = true` (internal form) the value at `sp`
is read, `reg[7]` becomes `sp + 1` and the value is returned; with
`return_val = false` (instruction form) the value is stored into the
operand register and `pc` advances by 2. -/
def pop (s : CPUState) (return_val : Bool) : Option (Option Int × CPUState) := do
  let sp ← pyGet s.reg 7
  if return_val then do
    let popped_val ← ram_read s sp
    let s ← regSet s 7 (sp + 1)
    some (some popped_val, s)
  else do
    let reg_address ← ram_read s (s.pc + 1)
    let popped_val ← ram_read s sp
    let s ← regSet s reg_address popped_val
    let s ← regSet s 7 (sp + 1)
    some (none, { s with pc := s.pc + 2 })

/-- `CPU.call`: push the return address `pc + 2`, then set `pc` to the
value of the operand-selected register. -/
def call (s : CPUState) : Option CPUState := do
  let return_address := s.pc + 2
  let s ← push s (some return_address)
  let reg_val ← ram_read s (s.pc + 1)
  let sub_address ← pyGet s.reg reg_val
  some { s with pc := sub_address }

/-- `CPU.ret`: pop the return address off the stack into `pc`. -/
def ret (s : CPUState) : Option CPUState := do
  let (v, s) ← pop s true
  let return_address ← v
  some { s with pc := return_address }

/-- `CPU.ldi`: load an immediate value into a register. -/
def ldi (s : CPUState) : Option CPUState := do
  let reg_address ← ram_read s (s.pc + 1)
  let reg_value ← ram_read s (s.pc + 2)
  let s ← regSet s reg_address reg_value
  some { s with pc := s.pc + 3 }

/-- `CPU.prn`: print the value of a register (the printed value is
discarded here; only the state effect is retained). -/
def prn (s : CPUState) : Option CPUState := do
  let reg_address ← ram_read s (s.pc + 1)
  let _printed ← pyGet s.reg reg_address
  some { s with pc := s.pc + 2 }

/-- `CPU.pra`: print the character of a register value. -/
def pra (s : CPUState) : Option CPUState := do
  let reg_address ← ram_read s (s.pc + 1)
  let _ascii_num ← pyGet s.reg reg_address
  some { s with pc := s.pc + 2 }

/-- `CPU.mul`: ALU multiply of two operand registers. -/
def mul (s : CPUState) : Option CPUState := do
  let reg_a ← ram_read s (s.pc + 1)
  let reg_b ← ram_read s (s.pc + 2)
  let s ← alu s "MUL" reg_a reg_b
  some { s with pc := s.pc + 3 }

/-- `CPU.add`: ALU add of two operand registers. -/
def add (s : CPUState) : Option CPUState := do
  let reg_a ← ram_read s (s.pc + 1)
  let reg_b ← ram_read s (s.pc + 2)
  let s ← alu s "ADD" reg_a reg_b
  some { s with pc := s.pc + 3 }

/-- `CPU.cmp`: ALU compare of two operand registers. -/
def cmp (s : CPUState) : Option CPUState := do
  let reg_a ← ram_read s (s.pc + 1)
  let reg_b ← ram_read s (s.pc + 2)
  let s ← alu s "CMP" reg_a reg_b
  some { s with pc := s.pc + 3 }

/-- `CPU.store`: store the value of one register at the memory address
held in another. -/
def store (s : CPUState) : Option CPUState := do
  let reg_a ← ram_read s (s.pc + 1)
  let reg_b ← ram_read s (s.pc + 2)
  let target_address ← pyGet s.reg reg_a
  let target_val ← pyGet s.reg reg_b
  let s ← ram_write s target_address target_val
  some { s with pc := s.pc + 3 }

/-- `CPU.jmp`: set `pc` to the address held in the operand register. -/
def jmp (s : CPUState) : Option CPUState := do
  let jump_address ← ram_read s (s.pc + 1)
  let target ← pyGet s.reg jump_address
  some { s with pc := target }

/-- The loop body of `CPU.i_ret`: `for i in range(6, -1, -1)` pops a value
into `reg[i]`. -/
def i_ret_loop (s : CPUState) : List Nat → Option CPUState
  | [] => some s
  | i :: rest => do
      let (v, s) ← pop s true
      let reg_val ← v
      let s ← regSet s (i : Int) reg_val
      i_ret_loop s rest

/-- `CPU.i_ret`: pop registers 6 down to 0, then pop the saved `pc`. -/
def i_ret (s : CPUState) : Option CPUState := do
  let s ← i_ret_loop s [6, 5, 4, 3, 2, 1, 0]
  let (v, s) ← pop s true
  let return_address ← v
  some { s with pc := return_address }

/-- The inner loop of `CPU._interrupts_enabled`: `for j in range(0, 7)`
pushes `reg[j]`. -/
def push_regs (s : CPUState) : List Nat → Option CPUState
  | [] => some s
  | j :: rest => do
      let v ← pyGet s.reg (j : Int)
      let s ← push s (some v)
      push_regs s rest

/-- The body executed by `CPU._interrupts_enabled` when bit `i` of the
masked interrupts is set: clear `reg[IS]` (the whole register is assigned
`0` in the source), push `pc`, look up the handler at `0xF8 + i`, push
registers 0 through 6 in ascending order, and load the handler address
into `pc`. -/
def interrupt_dispatch (s : CPUState) (i : Nat) : Option CPUState := do
  let s ← regSet s 6 0
  let s ← push s (some s.pc)
  let handler_address ← ram_read s (0xF8 + (i : Int))
  let s ← push_regs s (List.range 7)
  some { s with pc := handler_address }

/-- The scan `for i in range(8)` of `CPU._interrupts_enabled`, with the
`break` after a dispatched interrupt. -/
def interrupts_loop (s : CPUState) (masked_interrupts : Int) : List Nat → Option CPUState
  | [] => some s
  | i :: rest =>
      if Int.land (masked_interrupts >>> (i : Int)) 1 = 1 then
        interrupt_dispatch s i
      else
        interrupts_loop s masked_interrupts rest

/-- `CPU._interrupts_enabled`: mask IS (`reg[6]`) against IM (`reg[5]`)
and scan the 8 interrupt bits. -/
def interrupts_enabled (s : CPUState) : Option CPUState := do
  let im ← pyGet s.reg 5
  let isv ← pyGet s.reg 6
  interrupts_loop s (Int.land im isv) (List.range 8)

/-- The opcode keys of `self.instructions`. -/
def instructions : List Int :=
  [0b00000001, 0b10000010, 0b01000111, 0b10100010, 0b10100000, 0b01000101,
   0b01000110, 0b01010000, 0b00010001, 0b10000100, 0b00010011, 0b01010100,
   0b01001000, 0b10100111]

/-- Dispatch `self.instructions[ir]()` for the callable entries of the
table (the halt opcode maps to a string, not a callable, and is handled
separately in `cycle`, as in the source). -/
def execInstr (ir : Int) (s : CPUState) : Option CPUState :=
  if ir = 0b10000010 then ldi s
  else if ir = 0b01000111 then prn s
  else if ir = 0b10100010 then mul s
  else if ir = 0b10100000 then add s
  else if ir = 0b01000101 then push s none
  else if ir = 0b01000110 then (pop s false).map fun p => p.2
  else if ir = 0b01010000 then call s
  else if ir = 0b00010001 then ret s
  else if ir = 0b10000100 then store s
  else if ir = 0b00010011 then i_ret s
  else if ir = 0b01010100 then jmp s
  else if ir = 0b01001000 then pra s
  else if ir = 0b10100111 then cmp s
  else none

/-- The outcome of one iteration of the `while True` loop in `CPU.run`:
halt, continue with a new state, or the fatal decode path (carrying the
`sys.exit` status, the offending `pc` printed by the unknown-command
message, and the diagnostic dump printed by `trace`). -/
inductive StepResult where
  | halted : CPUState → StepResult
  | next : CPUState → StepResult
  | fatal : Int → Int → TraceOut → StepResult
  deriving DecidableEq, Repr

/-- One iteration of the `while True` loop of `CPU.run`.  `tick` is the
oracle for the wall-clock test `new_time - self.time >= 1`; when it fires
the source sets `reg[IS] = 1`.  Then pending masked interrupts are
serviced, the opcode at `pc` is fetched, and either the loop halts, a
handler runs, or the fatal decode path prints the offending `pc` and the
trace and exits with status 1. -/
def cycle (tick : Bool) (s : CPUState) : Option StepResult := do
  let s ← if tick then regSet s 6 1 else some s
  let isv ← pyGet s.reg 6
  let s ← if 1 ≤ isv then interrupts_enabled s else some s
  let ir ← ram_read s s.pc
  if ir = 0b00000001 then
    some (.halted s)
  else if ir ∈ instructions then
    (execInstr ir s).map .next
  else do
    let t ← trace s
    some (.fatal 1 s.pc t)

/-- The final outcome of running the loop for as many iterations as the
tick oracle list provides. -/
inductive RunOutcome where
  | halted : CPUState → RunOutcome
  | fatal : Int → Int → TraceOut → RunOutcome
  | fuelOut : CPUState → RunOutcome
  deriving DecidableEq, Repr

/-- `CPU.run`, driven by a finite tick-oracle list (one boolean per loop
iteration).  A `fatal` outcome terminates the recursion immediately: no
further instruction is fetched after the fatal decode path. -/
def run (ticks : List Bool) (s : CPUState) : Option RunOutcome :=
  match ticks with
  | [] => some (.fuelOut s)
  | t :: ts => do
      let r ← cycle t s
      match r with
      | .halted s1 => some (.halted s1)
      | .fatal code pcv tr => some (.fatal code pcv tr)
      | .next s1 => run ts s1

/-- A finite sequence of internal pushes (`push(v)` for each listed
value, in order). -/
def pushList (s : CPUState) : List Int → Option CPUState
  | [] => some s
  | v :: vs => do
      let s ← push s (some v)
      pushList s vs

/-- A finite sequence of `n` internal pops (`pop(return_val=True)`),
collecting the popped values in order. -/
def popN (s : CPUState) : Nat → Option (List Int × CPUState)
  | 0 => some ([], s)
  | n + 1 => do
      let (v, s1) ← pop s true
      let v ← v
      let (vs, s2) ← popN s1 n
      some (v :: vs, s2)

/-! ### Indexing lemmas -/

theorem pyIdx_of_nonneg (len : Nat) (i : Int) (h0 : 0 ≤ i) (h1 : i < (len : Int)) :
    pyIdx len i = some i.toNat := by
  simp [pyIdx, h0, h1]

theorem pyGet_toNat (l : List Int) (i : Int) (h0 : 0 ≤ i) (h1 : i < (l.length : Int)) :
    pyGet l i = l[i.toNat]? := by
  simp [pyGet, pyIdx_of_nonneg l.length i h0 h1]

theorem pySet_toNat (l : List Int) (i : Int) (v : Int) (h0 : 0 ≤ i)
    (h1 : i < (l.length : Int)) :
    pySet l i v = some (l.set i.toNat v) := by
  simp [pySet, pyIdx_of_nonneg l.length i h0 h1]

theorem exists_list_eight (l : List Int) (hl : l.length = 8) :
    ∃ v0 v1 v2 v3 v4 v5 v6 v7, l = [v0, v1, v2, v3, v4, v5, v6, v7] := by
  obtain ⟨v0, l, rfl⟩ := List.exists_of_length_succ l hl
  simp only [List.length_cons, Nat.succ_inj] at hl
  obtain ⟨v1, l, rfl⟩ := List.exists_of_length_succ l hl
  simp only [List.length_cons, Nat.succ_inj] at hl
  obtain ⟨v2, l, rfl⟩ := List.exists_of_length_succ l hl
  simp only [List.length_cons, Nat.succ_inj] at hl
  obtain ⟨v3, l, rfl⟩ := List.exists_of_length_succ l hl
  simp only [List.length_cons, Nat.succ_inj] at hl
  obtain ⟨v4, l, rfl⟩ := List.exists_of_length_succ l hl
  simp only [List.length_cons, Nat.succ_inj] at hl
  obtain ⟨v5, l, rfl⟩ := List.exists_of_length_succ l hl
  simp only [List.length_cons, Nat.succ_inj] at hl
  obtain ⟨v6, l, rfl⟩ := List.exists_of_length_succ l hl
  simp only [List.length_cons, Nat.succ_inj] at hl
  obtain ⟨v7, l, rfl⟩ := List.exists_of_length_succ l hl
  simp only [List.length_cons, Nat.succ_inj] at hl
  simp only [List.length_eq_zero] at hl
  exact ⟨v0, v1, v2, v3, v4, v5, v6, v7, by rw [hl]⟩

/-! ### Specification lemmas for the stack primitives -/

theorem push_internal_spec (s : CPUState) (v r0 r1 r2 r3 r4 r5 r6 : Int) (sp : Int)
    (hram : s.ram.length = 256)
    (hreg : s.reg = [r0, r1, r2, r3, r4, r5, r6, sp])
    (h1 : 1 ≤ sp) (h2 : sp ≤ 256) :
    push s (some v) =
      some { s with ram := s.ram.set (sp - 1).toNat v,
                    reg := [r0, r1, r2, r3, r4, r5, r6, sp - 1] } := by
  have h7 : pyGet s.reg 7 = some sp := by
    rw [hreg]; simp [pyGet, pyIdx]
  have hw : pySet s.ram (sp - 1) v = some (s.ram.set (sp - 1).toNat v) :=
    pySet_toNat s.ram (sp - 1) v (by omega) (by rw [hram]; omega)
  simp only [push, h7, Option.bind_some, Option.some_bind, ram_write, hw, Option.map_some,
    regSet]
  rw [hreg]
  simp [pySet, pyIdx, hram, h1, show sp - 1 < (256 : Int) by omega]

theorem pop_true_spec (s : CPUState) (w r0 r1 r2 r3 r4 r5 r6 : Int) (sp : Int)
    (hreg : s.reg = [r0, r1, r2, r3, r4, r5, r6, sp])
    (h0 : 0 ≤ sp) (h1 : sp < (s.ram.length : Int))
    (hw : s.ram[sp.toNat]? = some w) :
    pop s true = some (some w, { s with reg := [r0, r1, r2, r3, r4, r5, r6, sp + 1] }) := by
  have h7 : pyGet s.reg 7 = some sp := by
    rw [hreg]; simp [pyGet, pyIdx]
  have hrd : ram_read s sp = some w := by
    rw [ram_read, pyGet_toNat s.ram sp h0 h1, hw]
  simp only [pop, h7, Option.bind_some, Option.some_bind, if_pos, regSet]
  rw [hreg]
  simp only [pySet, pyIdx, List.length_cons, List.length_nil]
  norm_num
  rw [hrd]
  simp

theorem pyIdx_lt (len : Nat) (i : Int) (j : Nat) (h : pyIdx len i = some j) : j < len := by
  unfold pyIdx at h
  split at h
  · split at h
    · simp only [Option.some.injEq] at h
      omega
    · simp at h
  · split at h
    · simp only [Option.some.injEq] at h
      omega
    · simp at h

theorem set_getElem?_self (l : List Int) (i : Nat) (v : Int) (h : l[i]? = some v) :
    l.set i v = l := by
  apply List.ext_getElem?
  intro n
  rw [List.getElem?_set]
  split
  · next heq =>
      subst heq
      rw [if_pos (by exact (List.getElem?_eq_some.mp h).1), h]
  · rfl

theorem pyGet_pySet (l : List Int) (i v w : Int) (h : pyGet l i = some v) :
    ∃ l', pySet l i w = some l' ∧ pyGet l' i = some w ∧ l'.length = l.length := by
  rcases hj : pyIdx l.length i with _ | j
  · rw [pyGet, hj] at h
    simp at h
  · have hlt : j < l.length := pyIdx_lt _ _ _ hj
    refine ⟨l.set j w, by simp [pySet, hj], ?_, by simp⟩
    rw [pyGet, List.length_set, hj]
    simp [List.getElem?_set_self hlt]

/-- Variant of `push_internal_spec` that does not require the register file
in literal form. -/
theorem push_internal_spec' (s : CPUState) (v : Int) (sp : Int)
    (hram : s.ram.length = 256) (hreg8 : s.reg.length = 8)
    (h7 : pyGet s.reg 7 = some sp)
    (h1 : 1 ≤ sp) (h2 : sp ≤ 256) :
    push s (some v) =
      some { s with ram := s.ram.set (sp - 1).toNat v, reg := s.reg.set 7 (sp - 1) } := by
  have hw : pySet s.ram (sp - 1) v = some (s.ram.set (sp - 1).toNat v) :=
    pySet_toNat s.ram (sp - 1) v (by omega) (by rw [hram]; omega)
  have hr : pySet s.reg 7 (sp - 1) = some (s.reg.set 7 (sp - 1)) := by
    have := pySet_toNat s.reg 7 (sp - 1) (by omega) (by rw [hreg8]; omega)
    simpa using this
  simp only [push, h7, Option.some_bind, ram_write, hw, Option.map_some, Option.some_bind,
    regSet]
  simp [hw, hr]

/-- Variant of `pop_true_spec` that does not require the register file in
literal form. -/
theorem pop_true_spec' (s : CPUState) (w : Int) (sp : Int)
    (hreg8 : s.reg.length = 8)
    (h7 : pyGet s.reg 7 = some sp)
    (h0 : 0 ≤ sp) (h1 : sp < (s.ram.length : Int))
    (hw : s.ram[sp.toNat]? = some w) :
    pop s true = some (some w, { s with reg := s.reg.set 7 (sp + 1) }) := by
  have hrd : ram_read s sp = some w := by
    rw [ram_read, pyGet_toNat s.ram sp h0 h1, hw]
  have hr : pySet s.reg 7 (sp + 1) = some (s.reg.set 7 (sp + 1)) := by
    have := pySet_toNat s.reg 7 (sp + 1) (by omega) (by rw [hreg8]; omega)
    simpa using this
  simp only [pop, h7, Option.some_bind, if_pos, hrd, regSet]
  simp [hrd, hr]

/-! ### The stack LIFO development -/

theorem pushList_spec (vs : List Int) :
    ∀ (s : CPUState) (r0 r1 r2 r3 r4 r5 r6 : Int) (sp : Int),
      s.ram.length = 256 →
      s.reg = [r0, r1, r2, r3, r4, r5, r6, sp] →
      (vs.length : Int) ≤ sp → sp ≤ 256 →
      ∃ ramF,
        pushList s vs =
          some { s with ram := ramF,
                        reg := [r0, r1, r2, r3, r4, r5, r6, sp - vs.length] } ∧
        ramF.length = 256 ∧
        (∀ a : Nat, sp ≤ (a : Int) → ramF[a]? = s.ram[a]?) ∧
        (∀ k : Nat, k < vs.length → ramF[(sp - 1 - k).toNat]? = vs[k]?) := by
  induction vs with
  | nil =>
      intro s r0 r1 r2 r3 r4 r5 r6 sp hram hreg hn hsp
      refine ⟨s.ram, ?_, hram, fun a _ => rfl, fun k hk => absurd hk (Nat.not_lt_zero k)⟩
      rw [pushList]
      simp only [List.length_nil, Nat.cast_zero, sub_zero]
      rw [← hreg]
  | cons v vs ih =>
      intro s r0 r1 r2 r3 r4 r5 r6 sp hram hreg hn hsp
      have hn' : ((vs.length : Int) + 1) ≤ sp := by
        rw [List.length_cons] at hn
        push_cast at hn
        omega
      have h1 : 1 ≤ sp := by omega
      have hpush := push_internal_spec s v r0 r1 r2 r3 r4 r5 r6 sp hram hreg h1 hsp
      obtain ⟨ramF, hrun, hlenF, hframe, hcont⟩ :=
        ih { s with ram := s.ram.set (sp - 1).toNat v,
                    reg := [r0, r1, r2, r3, r4, r5, r6, sp - 1] }
          r0 r1 r2 r3 r4 r5 r6 (sp - 1) (by simp [hram]) rfl (by omega) (by omega)
      refine ⟨ramF, ?_, hlenF, ?_, ?_⟩
      · rw [pushList]
        rw [hpush]
        simp only [Option.bind_eq_bind, Option.some_bind]
        rw [hrun]
        simp only [List.length_cons]
        push_cast
        ring_nf
      · intro a ha
        rw [hframe a (by omega)]
        exact List.getElem?_set_ne (by omega)
      · intro k hk
        match k with
        | 0 =>
            have he : ramF[((sp - 1 - (0 : Nat)).toNat)]? = some v := by
              rw [show ((sp : Int) - 1 - ((0 : Nat) : Int)) = sp - 1 by push_cast; ring]
              rw [hframe (sp - 1).toNat (by omega)]
              exact List.getElem?_set_self (by rw [hram]; omega)
            rw [he]
            simp
        | k + 1 =>
            have hk' : k < vs.length := by
              rw [List.length_cons] at hk
              omega
            have := hcont k hk'
            rw [show ((sp : Int) - 1 - 1 - (k : Int)) = sp - 1 - ((k : Nat) + 1 : Nat) by
              push_cast; ring] at this
            rw [this]
            simp

theorem popN_spec (n : Nat) :
    ∀ (s : CPUState) (r0 r1 r2 r3 r4 r5 r6 : Int) (sp : Int),
      s.ram.length = 256 →
      s.reg = [r0, r1, r2, r3, r4, r5, r6, sp] →
      0 ≤ sp → sp + n ≤ 256 →
      ∃ out,
        popN s n = some (out, { s with reg := [r0, r1, r2, r3, r4, r5, r6, sp + n] }) ∧
        out.length = n ∧
        (∀ k : Nat, k < n → out[k]? = s.ram[(sp + k).toNat]?) := by
  induction n with
  | zero =>
      intro s r0 r1 r2 r3 r4 r5 r6 sp hram hreg h0 hsp
      refine ⟨[], ?_, rfl, fun k hk => absurd hk (Nat.not_lt_zero k)⟩
      rw [popN]
      simp only [Nat.cast_zero, add_zero]
      rw [← hreg]
  | succ n ih =>
      intro s r0 r1 r2 r3 r4 r5 r6 sp hram hreg h0 hsp
      have hlt : sp.toNat < s.ram.length := by omega
      obtain ⟨w, hw⟩ : ∃ w, s.ram[sp.toNat]? = some w :=
        ⟨s.ram[sp.toNat], List.getElem?_eq_getElem hlt⟩
      have hpop := pop_true_spec s w r0 r1 r2 r3 r4 r5 r6 sp hreg h0 (by omega) hw
      obtain ⟨out, hrun, hlen, hcont⟩ :=
        ih { s with reg := [r0, r1, r2, r3, r4, r5, r6, sp + 1] }
          r0 r1 r2 r3 r4 r5 r6 (sp + 1) hram rfl (by omega) (by push_cast at hsp ⊢; omega)
      refine ⟨w :: out, ?_, by simp [hlen], ?_⟩
      · rw [popN]
        rw [hpop]
        simp only [Option.bind_eq_bind, Option.some_bind]
        rw [hrun]
        simp only [Option.some_bind]
        have harith : sp + 1 + (n : Int) = sp + ((n + 1 : Nat) : Int) := by
          push_cast
          ring
        rw [harith]
      · intro k hk
        match k with
        | 0 =>
            simpa using hw.symm
        | k + 1 =>
            have := hcont k (by omega)
            simp only [List.getElem?_cons_succ]
            rw [this]
            congr 2
            push_cast
            ring

/-- C4: the stack is LIFO with inverse push/pop: each internal push writes
its value at address `SP - 1` and sets `SP` to `SP - 1`; each internal pop
reads the value at address `SP` and sets `SP` to `SP + 1`; and a finite
sequence of internal pushes of `v1..vn` followed by `n` internal pops
yields the popped sequence `vn..v1` with `SP` (and the whole register
file) returned to its pre-push value. -/
theorem stack_lifo_round_trip :
    (∀ (s : CPUState) (v r0 r1 r2 r3 r4 r5 r6 sp : Int),
      s.ram.length = 256 → s.reg = [r0, r1, r2, r3, r4, r5, r6, sp] →
      1 ≤ sp → sp ≤ 256 →
      push s (some v) =
        some { s with ram := s.ram.set (sp - 1).toNat v,
                      reg := [r0, r1, r2, r3, r4, r5, r6, sp - 1] }) ∧
    (∀ (s : CPUState) (w r0 r1 r2 r3 r4 r5 r6 sp : Int),
      s.reg = [r0, r1, r2, r3, r4, r5, r6, sp] →
      0 ≤ sp → sp < (s.ram.length : Int) → s.ram[sp.toNat]? = some w →
      pop s true =
        some (some w, { s with reg := [r0, r1, r2, r3, r4, r5, r6, sp + 1] })) ∧
    (∀ (vs : List Int) (s : CPUState) (r0 r1 r2 r3 r4 r5 r6 sp : Int),
      s.ram.length = 256 → s.reg = [r0, r1, r2, r3, r4, r5, r6, sp] →
      (vs.length : Int) ≤ sp → sp ≤ 256 →
      ((pushList s vs).bind fun s1 => popN s1 vs.length).map
          (fun p => (p.1, p.2.reg, p.2.pc, p.2.fl)) =
        some (vs.reverse, s.reg, s.pc, s.fl)) := by
  refine ⟨fun s v r0 r1 r2 r3 r4 r5 r6 sp hram hreg h1 h2 =>
      push_internal_spec s v r0 r1 r2 r3 r4 r5 r6 sp hram hreg h1 h2,
    fun s w r0 r1 r2 r3 r4 r5 r6 sp hreg h0 h1 hw =>
      pop_true_spec s w r0 r1 r2 r3 r4 r5 r6 sp hreg h0 h1 hw, ?_⟩
  intro vs s r0 r1 r2 r3 r4 r5 r6 sp hram hreg hn hsp
  obtain ⟨ramF, hrun, hlenF, hframe, hcont⟩ :=
    pushList_spec vs s r0 r1 r2 r3 r4 r5 r6 sp hram hreg hn hsp
  rw [hrun]
  simp only [Option.bind_eq_bind, Option.some_bind]
  obtain ⟨out, hrun2, hlen2, hcont2⟩ :=
    popN_spec vs.length
      { s with ram := ramF, reg := [r0, r1, r2, r3, r4, r5, r6, sp - vs.length] }
      r0 r1 r2 r3 r4 r5 r6 (sp - vs.length) (by simpa using hlenF) rfl (by omega)
      (by omega)
  dsimp only at hrun2 hcont2
  rw [hrun2]
  simp only [Option.map_some']
  have hout : out = vs.reverse := by
    apply List.ext_getElem?
    intro n
    by_cases hn2 : n < vs.length
    · rw [hcont2 n (by omega)]
      have hidx : ((sp - (vs.length : Int) + (n : Int))).toNat =
          ((sp - 1 - ((vs.length - 1 - n : Nat) : Int))).toNat := by omega
      rw [List.getElem?_reverse hn2]
      rw [hidx]
      exact hcont (vs.length - 1 - n) (by omega)
    · have h1 : out[n]? = none := List.getElem?_eq_none (by omega)
      have h2 : vs.reverse[n]? = none := List.getElem?_eq_none (by simp; omega)
      rw [h1, h2]
  rw [hout, hreg]
  simp only [sub_add_cancel]

/-- A concrete freshly-constructed CPU state (zero memory, SP = 244). -/
def stateW : CPUState :=
  { ram := List.replicate 256 0, reg := [0, 0, 0, 0, 0, 0, 0, 244], pc := 0, fl := 0 }

/-- Concrete instance of the LIFO round trip: pushing 11, 22, 33 from the
initial state and popping three times yields 33, 22, 11 and restores the
registers. -/
theorem stack_lifo_round_trip_witness :
    ((pushList stateW [11, 22, 33]).bind fun s1 => popN s1 3).map
        (fun p => (p.1, p.2.reg, p.2.pc, p.2.fl)) =
      some ([33, 22, 11], [0, 0, 0, 0, 0, 0, 0, 244], 0, 0) := by
  have h := stack_lifo_round_trip.2.2 [11, 22, 33] stateW
    0 0 0 0 0 0 0 244 (List.length_replicate 256 0) rfl (by norm_num) (by norm_num)
  exact h

/-! ### ALU facts -/

/-- A state with 200 and 100 in registers 0 and 1. -/
def addW : CPUState :=
  { ram := List.replicate 256 0, reg := [200, 100, 0, 0, 0, 0, 0, 244], pc := 0, fl := 0 }

/-- C2 (corrected): the `ADD`/`MUL` handlers store the exact Python
integer sum/product of the two register values; no reduction modulo 256
is applied anywhere. -/
theorem alu_add_mul_exact (s : CPUState) (a b va vb : Int)
    (ha : pyGet s.reg a = some va) (hb : pyGet s.reg b = some vb)
    (hva0 : 0 ≤ va) (hva : va ≤ 255) (hvb0 : 0 ≤ vb) (hvb : vb ≤ 255) :
    ((alu s "ADD" a b).bind fun t => pyGet t.reg a) = some (va + vb) ∧
    ((alu s "MUL" a b).bind fun t => pyGet t.reg a) = some (va * vb) := by
  obtain ⟨l1, hset1, hget1, _⟩ := pyGet_pySet s.reg a va (va + vb) ha
  obtain ⟨l2, hset2, hget2, _⟩ := pyGet_pySet s.reg a va (va * vb) ha
  constructor
  · rw [alu, ha, hb]
    simp only [Option.bind_eq_bind, Option.some_bind]
    rw [if_pos trivial, regSet, hset1]
    simpa using hget1
  · rw [alu, ha, hb]
    simp only [Option.bind_eq_bind, Option.some_bind]
    rw [if_neg (by decide : ¬("MUL" : String) = "ADD"), regSet, hset2]
    simpa using hget2

/-- The C2 claim is false on the code: adding 200 and 100 leaves 300 in
the register, not `(200 + 100) % 256 = 44`; multiplying them leaves
20000, not 32. -/
theorem alu_wraparound_counterexample :
    ((alu addW "ADD" 0 1).bind fun t => pyGet t.reg 0) = some 300 ∧
    ((alu addW "ADD" 0 1).bind fun t => pyGet t.reg 0) ≠ some ((200 + 100) % 256) ∧
    ((alu addW "MUL" 0 1).bind fun t => pyGet t.reg 0) = some 20000 ∧
    ((alu addW "MUL" 0 1).bind fun t => pyGet t.reg 0) ≠ some ((200 * 100) % 256) := by
  refine ⟨?_, ?_, ?_, ?_⟩ <;> decide

/-- Concrete instance of `alu_add_mul_exact` at register values 200
and 100. -/
theorem alu_add_mul_exact_witness :
    ((alu addW "ADD" 0 1).bind fun t => pyGet t.reg 0) = some (200 + 100) ∧
    ((alu addW "MUL" 0 1).bind fun t => pyGet t.reg 0) = some (200 * 100) :=
  alu_add_mul_exact addW 0 1 200 100 rfl rfl (by norm_num) (by norm_num) (by norm_num)
    (by norm_num)

/-- Any successful `CMP` leaves memory, registers and `pc` unchanged and
only bitwise-ors something into the flags byte. -/
theorem alu_cmp_characterization (s t : CPUState) (a b : Int)
    (h : alu s "CMP" a b = some t) :
    t.ram = s.ram ∧ t.reg = s.reg ∧ t.pc = s.pc ∧ ∃ m : Nat, t.fl = s.fl ||| m := by
  rw [alu] at h
  rcases ha : pyGet s.reg a with _ | va
  · rw [ha] at h
    simp at h
  rcases hb : pyGet s.reg b with _ | vb
  · rw [ha, hb] at h
    simp at h
  rw [ha, hb] at h
  simp only [Option.bind_eq_bind, Option.some_bind] at h
  rw [if_neg (by decide : ¬("CMP" : String) = "ADD"),
    if_neg (by decide : ¬("CMP" : String) = "MUL")] at h
  split_ifs at h <;> injection h with h <;> subst h <;>
    first
      | exact ⟨rfl, rfl, rfl, _, rfl⟩
      | exact ⟨rfl, rfl, rfl, 0, by simp⟩

/-- A state with 5 in register 0 and 3 in registers 1 and 2. -/
def cmpW : CPUState :=
  { ram := List.replicate 256 0, reg := [5, 3, 3, 0, 0, 0, 0, 244], pc := 0, fl := 0 }

/-- C7: `CMP` accumulates flags by bitwise OR and never clears them:
comparing 5 vs 3 ors in the GT bit (bit 0); comparing 3 vs 3 ors in the
EQ bit (bit 1); and after any two successive compares every flag bit set
after the first compare is still set after the second. -/
theorem cmp_flag_accumulation :
    (∀ (s : CPUState) (a b : Int), pyGet s.reg a = some 5 → pyGet s.reg b = some 3 →
      alu s "CMP" a b = some { s with fl := s.fl ||| 0b00000001 } ∧
      (s.fl ||| 0b00000001).testBit 0 = true) ∧
    (∀ (s : CPUState) (a b : Int), pyGet s.reg a = some 3 → pyGet s.reg b = some 3 →
      alu s "CMP" a b = some { s with fl := s.fl ||| 0b00000010 } ∧
      (s.fl ||| 0b00000010).testBit 1 = true) ∧
    (∀ (s1 s2 s3 : CPUState) (a b c d : Int),
      alu s1 "CMP" a b = some s2 → alu s2 "CMP" c d = some s3 →
      ∀ k, s2.fl.testBit k = true → s3.fl.testBit k = true) := by
  refine ⟨?_, ?_, ?_⟩
  · intro s a b ha hb
    constructor
    · rw [alu, ha, hb]
      simp only [Option.bind_eq_bind, Option.some_bind]
      norm_num
      rw [if_neg (by decide : ¬("CMP" : String) = "ADD"),
        if_neg (by decide : ¬("CMP" : String) = "MUL")]
    · simp [Nat.testBit_lor]
  · intro s a b ha hb
    constructor
    · rw [alu, ha, hb]
      simp only [Option.bind_eq_bind, Option.some_bind]
      norm_num
      rw [if_neg (by decide : ¬("CMP" : String) = "ADD"),
        if_neg (by decide : ¬("CMP" : String) = "MUL")]
    · rw [Nat.testBit_lor]
      simp [show Nat.testBit 2 1 = true from rfl]
  · intro s1 s2 s3 a b c d h1 h2 k hk
    obtain ⟨_, _, _, m, hm⟩ := alu_cmp_characterization s2 s3 c d h2
    rw [hm, Nat.testBit_lor, hk]
    rfl

/-- Concrete instance of the flag accumulation: comparing 5 vs 3 and
then 3 vs 3 from a fresh state sets the GT bit, then ors in the EQ bit
with the GT bit still set. -/
theorem cmp_flag_accumulation_witness :
    (cmpW.fl ||| 0b00000001).testBit 0 = true ∧
    alu cmpW "CMP" 0 1 = some { cmpW with fl := cmpW.fl ||| 0b00000001 } ∧
    alu { cmpW with fl := cmpW.fl ||| 0b00000001 } "CMP" 1 2 =
      some { cmpW with fl := cmpW.fl ||| 0b00000001 ||| 0b00000010 } ∧
    (cmpW.fl ||| 0b00000001 ||| 0b00000010).testBit 0 = true := by
  have h1 := cmp_flag_accumulation.1 cmpW 0 1 rfl rfl
  have h2 := cmp_flag_accumulation.2.1 { cmpW with fl := cmpW.fl ||| 0b00000001 } 1 2 rfl rfl
  refine ⟨h1.2, h1.1, h2.1, ?_⟩
  exact cmp_flag_accumulation.2.2 cmpW _ _ 0 1 1 2 h1.1 h2.1 0 (by decide)

/-! ### Frame lemmas: which handlers leave the flags byte unchanged -/

theorem fl_of_regSet (s t : CPUState) (i v : Int) (h : regSet s i v = some t) :
    t.fl = s.fl := by
  rw [regSet] at h
  rcases hp : pySet s.reg i v with _ | l
  · rw [hp] at h
    simp at h
  · rw [hp] at h
    simp only [Option.map_some', Option.some.injEq] at h
    rw [← h]

theorem fl_of_ram_write (s t : CPUState) (i v : Int) (h : ram_write s i v = some t) :
    t.fl = s.fl := by
  rw [ram_write] at h
  rcases hp : pySet s.ram i v with _ | l
  · rw [hp] at h
    simp at h
  · rw [hp] at h
    simp only [Option.map_some', Option.some.injEq] at h
    rw [← h]

theorem fl_of_push (s t : CPUState) (val : Option Int) (h : push s val = some t) :
    t.fl = s.fl := by
  cases val with
  | some v =>
      rw [push] at h
      simp only [Option.bind_eq_bind, Option.bind_eq_some] at h
      obtain ⟨sp, _, s1, hs1, h2⟩ := h
      rw [fl_of_regSet _ _ _ _ h2, fl_of_ram_write _ _ _ _ hs1]
  | none =>
      rw [push] at h
      simp only [Option.bind_eq_bind, Option.bind_eq_some] at h
      obtain ⟨sp, _, ra, _, rv, _, s1, hs1, h2⟩ := h
      have h3 := fl_of_regSet _ _ _ _ h2
      rw [h3]
      exact fl_of_ram_write s s1 (sp - 1) rv hs1

theorem fl_of_pop (s t : CPUState) (vo : Option Int) (rv : Bool)
    (h : pop s rv = some (vo, t)) : t.fl = s.fl := by
  cases rv with
  | true =>
      rw [pop] at h
      simp only [Option.bind_eq_bind, Option.bind_eq_some] at h
      obtain ⟨sp, _, h⟩ := h
      rw [if_pos trivial] at h
      simp only [Option.bind_eq_bind, Option.bind_eq_some, Option.some.injEq,
        Prod.mk.injEq] at h
      obtain ⟨w, _, s1, hs1, _, rfl⟩ := h
      exact fl_of_regSet _ _ _ _ hs1
  | false =>
      rw [pop] at h
      simp only [Option.bind_eq_bind, Option.bind_eq_some] at h
      obtain ⟨sp, _, h⟩ := h
      rw [if_neg (by decide)] at h
      simp only [Option.bind_eq_bind, Option.bind_eq_some, Option.some.injEq,
        Prod.mk.injEq] at h
      obtain ⟨ra, _, w, _, s1, hs1, s2, hs2, _, rfl⟩ := h
      have h3 := fl_of_regSet s1 s2 7 (sp + 1) hs2
      have h4 := fl_of_regSet s s1 ra w hs1
      exact h3.trans h4

theorem fl_of_alu_arith (s t : CPUState) (op : String) (a b : Int)
    (hop : op = "ADD" ∨ op = "MUL") (h : alu s op a b = some t) : t.fl = s.fl := by
  rw [alu] at h
  simp only [Option.bind_eq_bind, Option.bind_eq_some] at h
  obtain ⟨va, _, vb, _, h⟩ := h
  rcases hop with rfl | rfl
  · rw [if_pos rfl] at h
    exact fl_of_regSet _ _ _ _ h
  · rw [if_neg (by decide : ¬("MUL" : String) = "ADD"), if_pos rfl] at h
    exact fl_of_regSet _ _ _ _ h

theorem fl_of_ldi (s t : CPUState) (h : ldi s = some t) : t.fl = s.fl := by
  rw [ldi] at h
  simp only [Option.bind_eq_bind, Option.bind_eq_some, Option.some.injEq] at h
  obtain ⟨ra, _, rv, _, s1, hs1, rfl⟩ := h
  exact fl_of_regSet s s1 ra rv hs1

theorem fl_of_prn (s t : CPUState) (h : prn s = some t) : t.fl = s.fl := by
  rw [prn] at h
  simp only [Option.bind_eq_bind, Option.bind_eq_some, Option.some.injEq] at h
  obtain ⟨ra, _, rv, _, rfl⟩ := h
  rfl

theorem fl_of_pra (s t : CPUState) (h : pra s = some t) : t.fl = s.fl := by
  rw [pra] at h
  simp only [Option.bind_eq_bind, Option.bind_eq_some, Option.some.injEq] at h
  obtain ⟨ra, _, rv, _, rfl⟩ := h
  rfl

theorem fl_of_add (s t : CPUState) (h : add s = some t) : t.fl = s.fl := by
  rw [add] at h
  simp only [Option.bind_eq_bind, Option.bind_eq_some, Option.some.injEq] at h
  obtain ⟨ra, _, rb, _, s1, hs1, rfl⟩ := h
  exact fl_of_alu_arith s s1 "ADD" ra rb (Or.inl rfl) hs1

theorem fl_of_mul (s t : CPUState) (h : mul s = some t) : t.fl = s.fl := by
  rw [mul] at h
  simp only [Option.bind_eq_bind, Option.bind_eq_some, Option.some.injEq] at h
  obtain ⟨ra, _, rb, _, s1, hs1, rfl⟩ := h
  exact fl_of_alu_arith s s1 "MUL" ra rb (Or.inr rfl) hs1

theorem fl_of_store (s t : CPUState) (h : store s = some t) : t.fl = s.fl := by
  rw [store] at h
  simp only [Option.bind_eq_bind, Option.bind_eq_some, Option.some.injEq] at h
  obtain ⟨ra, _, rb, _, ta, _, tv, _, s1, hs1, rfl⟩ := h
  exact fl_of_ram_write s s1 ta tv hs1

theorem fl_of_jmp (s t : CPUState) (h : jmp s = some t) : t.fl = s.fl := by
  rw [jmp] at h
  simp only [Option.bind_eq_bind, Option.bind_eq_some, Option.some.injEq] at h
  obtain ⟨ra, _, rv, _, rfl⟩ := h
  rfl

theorem fl_of_call (s t : CPUState) (h : call s = some t) : t.fl = s.fl := by
  rw [call] at h
  simp only [Option.bind_eq_bind, Option.bind_eq_some, Option.some.injEq] at h
  obtain ⟨s1, hs1, ra, _, sa, _, rfl⟩ := h
  exact fl_of_push s s1 (some (s.pc + 2)) hs1

theorem fl_of_ret (s t : CPUState) (h : ret s = some t) : t.fl = s.fl := by
  rw [ret] at h
  simp only [Option.bind_eq_bind, Option.bind_eq_some, Option.some.injEq] at h
  obtain ⟨⟨vo, s1⟩, hs1, w, _, rfl⟩ := h
  exact fl_of_pop s s1 vo true hs1

theorem fl_of_pop_instr (s t : CPUState) (h : (pop s false).map (fun p => p.2) = some t) :
    t.fl = s.fl := by
  rcases hp : pop s false with _ | p
  · rw [hp] at h
    simp at h
  · rw [hp] at h
    simp only [Option.map_some', Option.some.injEq] at h
    subst h
    exact fl_of_pop _ _ _ _ hp

theorem fl_of_push_regs (l : List Nat) :
    ∀ s t : CPUState, push_regs s l = some t → t.fl = s.fl := by
  induction l with
  | nil =>
      intro s t h
      rw [push_regs] at h
      injection h with h
      rw [h]
  | cons j rest ih =>
      intro s t h
      rw [push_regs] at h
      simp only [Option.bind_eq_bind, Option.bind_eq_some] at h
      obtain ⟨v, _, s1, hs1, h2⟩ := h
      rw [ih s1 t h2, fl_of_push _ _ _ hs1]

theorem fl_of_i_ret_loop (l : List Nat) :
    ∀ s t : CPUState, i_ret_loop s l = some t → t.fl = s.fl := by
  induction l with
  | nil =>
      intro s t h
      rw [i_ret_loop] at h
      injection h with h
      rw [h]
  | cons i rest ih =>
      intro s t h
      rw [i_ret_loop] at h
      simp only [Option.bind_eq_bind, Option.bind_eq_some] at h
      obtain ⟨⟨vo, s1⟩, hs1, w, _, s2, hs2, h3⟩ := h
      rw [ih s2 t h3, fl_of_regSet _ _ _ _ hs2, fl_of_pop _ _ _ _ hs1]

theorem fl_of_i_ret (s t : CPUState) (h : i_ret s = some t) : t.fl = s.fl := by
  rw [i_ret] at h
  simp only [Option.bind_eq_bind, Option.bind_eq_some, Option.some.injEq] at h
  obtain ⟨s1, hs1, ⟨vo, s2⟩, hs2, w, _, rfl⟩ := h
  have h3 := fl_of_pop s1 s2 vo true hs2
  have h4 := fl_of_i_ret_loop _ s s1 hs1
  exact h3.trans h4

theorem fl_of_interrupt_dispatch (s t : CPUState) (i : Nat)
    (h : interrupt_dispatch s i = some t) : t.fl = s.fl := by
  rw [interrupt_dispatch] at h
  simp only [Option.bind_eq_bind, Option.bind_eq_some, Option.some.injEq] at h
  obtain ⟨s1, hs1, s2, hs2, ha, _, s3, hs3, rfl⟩ := h
  have h3 := fl_of_push_regs _ _ _ hs3
  have h4 := fl_of_push _ _ _ hs2
  have h5 := fl_of_regSet _ _ _ _ hs1
  exact (h3.trans h4).trans h5

theorem fl_of_interrupts_loop (l : List Nat) (masked : Int) :
    ∀ s t : CPUState, interrupts_loop s masked l = some t → t.fl = s.fl := by
  induction l with
  | nil =>
      intro s t h
      rw [interrupts_loop] at h
      injection h with h
      rw [h]
  | cons i rest ih =>
      intro s t h
      rw [interrupts_loop] at h
      split_ifs at h
      · exact fl_of_interrupt_dispatch _ _ _ h
      · exact ih s t h

theorem fl_of_interrupts_enabled (s t : CPUState) (h : interrupts_enabled s = some t) :
    t.fl = s.fl := by
  rw [interrupts_enabled] at h
  simp only [Option.bind_eq_bind, Option.bind_eq_some] at h
  obtain ⟨im, _, isv, _, h⟩ := h
  exact fl_of_interrupts_loop _ _ _ _ h

/-- C9: the flags byte is updated only by the compare operation.  Every
callable dispatch-table handler other than `CMP` (LDI, PRN, PRA, ADD,
MUL, PUSH, POP, CALL, RET, STORE, JMP and the interrupt return), as well
as interrupt entry, leaves `fl` unchanged. -/
theorem flags_only_changed_by_cmp :
    (∀ (ir : Int) (s t : CPUState), ir ∈ instructions → ir ≠ 0b10100111 →
      execInstr ir s = some t → t.fl = s.fl) ∧
    (∀ s t : CPUState, interrupts_enabled s = some t → t.fl = s.fl) := by
  constructor
  · intro ir s t hmem hne h
    fin_cases hmem
    · simp [execInstr] at h
    · simp only [execInstr, if_pos rfl] at h
      exact fl_of_ldi _ _ h
    · simp [execInstr] at h
      exact fl_of_prn _ _ h
    · simp [execInstr] at h
      exact fl_of_mul _ _ h
    · simp [execInstr] at h
      exact fl_of_add _ _ h
    · simp [execInstr] at h
      exact fl_of_push _ _ _ h
    · simp [execInstr] at h
      obtain ⟨vo, hp⟩ := h
      exact fl_of_pop s t vo false hp
    · simp [execInstr] at h
      exact fl_of_call _ _ h
    · simp [execInstr] at h
      exact fl_of_ret _ _ h
    · simp [execInstr] at h
      exact fl_of_store _ _ h
    · simp [execInstr] at h
      exact fl_of_i_ret _ _ h
    · simp [execInstr] at h
      exact fl_of_jmp _ _ h
    · simp [execInstr] at h
      exact fl_of_pra _ _ h
    · exact absurd rfl hne
  · exact fl_of_interrupts_enabled

set_option maxRecDepth 4000 in
/-- Concrete instance of the flag frame property: executing LDI at a
fresh zero state, and running the interrupt check on it, both leave the
flags byte at its previous value. -/
theorem flags_only_changed_by_cmp_witness :
    ({ ram := stateW.ram, reg := [0, 0, 0, 0, 0, 0, 0, 244], pc := 3,
        fl := 0 } : CPUState).fl = stateW.fl ∧ stateW.fl = stateW.fl := by
  constructor
  · exact flags_only_changed_by_cmp.1 0b10000010 stateW
      { ram := stateW.ram, reg := [0, 0, 0, 0, 0, 0, 0, 244], pc := 3, fl := 0 }
      (by decide) (by decide) rfl
  · exact flags_only_changed_by_cmp.2 stateW stateW rfl

/-! ### Interrupt entry and return -/

theorem push_regs_eq_pushList (l : List Nat) :
    ∀ (s : CPUState) (r0 r1 r2 r3 r4 r5 r6 : Int) (sp : Int),
      s.ram.length = 256 →
      s.reg = [r0, r1, r2, r3, r4, r5, r6, sp] →
      (∀ j ∈ l, j < 7) →
      (l.length : Int) ≤ sp → sp ≤ 256 →
      push_regs s l =
        pushList s (l.map fun j => [r0, r1, r2, r3, r4, r5, r6].getD j 0) := by
  induction l with
  | nil =>
      intro s r0 r1 r2 r3 r4 r5 r6 sp _ _ _ _ _
      rw [push_regs, List.map_nil, pushList]
  | cons j rest ih =>
      intro s r0 r1 r2 r3 r4 r5 r6 sp hram hreg hmem hn hsp
      have hj : j < 7 := hmem j (by simp)
      have hval : pyGet s.reg (j : Int) =
          some ([r0, r1, r2, r3, r4, r5, r6].getD j 0) := by
        rw [hreg]
        interval_cases j <;> simp [pyGet, pyIdx]
      have h1 : 1 ≤ sp := by
        simp only [List.length_cons] at hn
        push_cast at hn
        omega
      have hpush := push_internal_spec s ([r0, r1, r2, r3, r4, r5, r6].getD j 0)
        r0 r1 r2 r3 r4 r5 r6 sp hram hreg h1 hsp
      rw [push_regs, List.map_cons, pushList, hval]
      simp only [Option.bind_eq_bind, Option.some_bind]
      rw [hpush]
      simp only [Option.some_bind]
      exact ih
        { s with
            ram := s.ram.set (sp - 1).toNat ([r0, r1, r2, r3, r4, r5, r6].getD j 0),
            reg := [r0, r1, r2, r3, r4, r5, r6, sp - 1] }
        r0 r1 r2 r3 r4 r5 r6 (sp - 1) (by simp [hram]) rfl
        (fun j2 hj2 => hmem j2 (List.mem_cons_of_mem _ hj2))
        (by simp only [List.length_cons] at hn; push_cast at hn ⊢; omega) (by omega)

theorem interrupt_dispatch_spec (s : CPUState) (r0 r1 r2 r3 r4 r5 r6 : Int) (sp : Int)
    (i : Nat) (handler : Int)
    (hram : s.ram.length = 256)
    (hreg : s.reg = [r0, r1, r2, r3, r4, r5, r6, sp])
    (h8 : 8 ≤ sp) (h248 : sp ≤ 248) (hi : i < 8)
    (hv : s.ram[248 + i]? = some handler) :
    ∃ ramF,
      interrupt_dispatch s i =
        some { ram := ramF, reg := [r0, r1, r2, r3, r4, r5, 0, sp - 8],
               pc := handler, fl := s.fl } ∧
      ramF.length = 256 ∧
      (∀ a : Nat, sp ≤ (a : Int) → ramF[a]? = s.ram[a]?) ∧
      ramF[(sp - 1).toNat]? = some s.pc ∧
      ramF[(sp - 2).toNat]? = some r0 ∧
      ramF[(sp - 3).toNat]? = some r1 ∧
      ramF[(sp - 4).toNat]? = some r2 ∧
      ramF[(sp - 5).toNat]? = some r3 ∧
      ramF[(sp - 6).toNat]? = some r4 ∧
      ramF[(sp - 7).toNat]? = some r5 ∧
      ramF[(sp - 8).toNat]? = some 0 := by
  have hA : regSet s 6 0 = some { s with reg := [r0, r1, r2, r3, r4, r5, 0, sp] } := by
    rw [regSet, hreg]
    simp [pySet, pyIdx]
  have hB : push { s with reg := [r0, r1, r2, r3, r4, r5, 0, sp] } (some s.pc) =
      some { ram := s.ram.set (sp - 1).toNat s.pc,
             reg := [r0, r1, r2, r3, r4, r5, 0, sp - 1], pc := s.pc, fl := s.fl } :=
    push_internal_spec _ s.pc r0 r1 r2 r3 r4 r5 0 sp hram rfl (by omega) (by omega)
  have hC : ram_read
      { ram := s.ram.set (sp - 1).toNat s.pc,
        reg := [r0, r1, r2, r3, r4, r5, 0, sp - 1], pc := s.pc, fl := s.fl }
      (0xF8 + (i : Int)) = some handler := by
    rw [ram_read]
    rw [pyGet_toNat _ _ (by omega)
      (by dsimp only; rw [List.length_set, hram]; push_cast; omega)]
    rw [show ((0xF8 : Int) + (i : Int)).toNat = 248 + i from by omega]
    dsimp only
    rw [List.getElem?_set_ne (by omega)]
    exact hv
  have hmap : (List.range 7).map
      (fun j => [r0, r1, r2, r3, r4, r5, (0 : Int)].getD j 0) =
      [r0, r1, r2, r3, r4, r5, 0] := rfl
  have hD : push_regs
      { ram := s.ram.set (sp - 1).toNat s.pc,
        reg := [r0, r1, r2, r3, r4, r5, 0, sp - 1], pc := s.pc, fl := s.fl }
      (List.range 7) =
      pushList
        { ram := s.ram.set (sp - 1).toNat s.pc,
          reg := [r0, r1, r2, r3, r4, r5, 0, sp - 1], pc := s.pc, fl := s.fl }
        [r0, r1, r2, r3, r4, r5, 0] := by
    have h := push_regs_eq_pushList (List.range 7)
      { ram := s.ram.set (sp - 1).toNat s.pc,
        reg := [r0, r1, r2, r3, r4, r5, 0, sp - 1], pc := s.pc, fl := s.fl }
      r0 r1 r2 r3 r4 r5 0 (sp - 1)
      (by dsimp only; rw [List.length_set, hram]) rfl
      (by intro j hj; simp at hj; omega)
      (by simp; omega) (by omega)
    rw [hmap] at h
    exact h
  obtain ⟨ramF, hrun, hlenF, hframe, hcont⟩ :=
    pushList_spec [r0, r1, r2, r3, r4, r5, 0]
      { ram := s.ram.set (sp - 1).toNat s.pc,
        reg := [r0, r1, r2, r3, r4, r5, 0, sp - 1], pc := s.pc, fl := s.fl }
      r0 r1 r2 r3 r4 r5 0 (sp - 1)
      (by dsimp only; rw [List.length_set, hram]) rfl (by simp; omega) (by omega)
  dsimp only at hrun hframe hcont
  have hsp1 : (sp - 1).toNat < s.ram.length := by omega
  have hfr : ∀ a : Nat, sp ≤ (a : Int) → ramF[a]? = s.ram[a]? := by
    intro a ha
    rw [hframe a (by omega), List.getElem?_set_ne (by omega)]
  have hpc : ramF[(sp - 1).toNat]? = some s.pc := by
    rw [hframe (sp - 1).toNat (by omega)]
    exact List.getElem?_set_self hsp1
  have hc0 : ramF[(sp - 2).toNat]? = some r0 := by
    have h := hcont 0 (by norm_num)
    rw [show ((sp : Int) - 1 - 1 - ((0 : Nat) : Int)) = sp - 2 from by push_cast; ring] at h
    simpa using h
  have hc1 : ramF[(sp - 3).toNat]? = some r1 := by
    have h := hcont 1 (by norm_num)
    rw [show ((sp : Int) - 1 - 1 - ((1 : Nat) : Int)) = sp - 3 from by push_cast; ring] at h
    simpa using h
  have hc2 : ramF[(sp - 4).toNat]? = some r2 := by
    have h := hcont 2 (by norm_num)
    rw [show ((sp : Int) - 1 - 1 - ((2 : Nat) : Int)) = sp - 4 from by push_cast; ring] at h
    simpa using h
  have hc3 : ramF[(sp - 5).toNat]? = some r3 := by
    have h := hcont 3 (by norm_num)
    rw [show ((sp : Int) - 1 - 1 - ((3 : Nat) : Int)) = sp - 5 from by push_cast; ring] at h
    simpa using h
  have hc4 : ramF[(sp - 6).toNat]? = some r4 := by
    have h := hcont 4 (by norm_num)
    rw [show ((sp : Int) - 1 - 1 - ((4 : Nat) : Int)) = sp - 6 from by push_cast; ring] at h
    simpa using h
  have hc5 : ramF[(sp - 7).toNat]? = some r5 := by
    have h := hcont 5 (by norm_num)
    rw [show ((sp : Int) - 1 - 1 - ((5 : Nat) : Int)) = sp - 7 from by push_cast; ring] at h
    simpa using h
  have hc6 : ramF[(sp - 8).toNat]? = some 0 := by
    have h := hcont 6 (by norm_num)
    rw [show ((sp : Int) - 1 - 1 - ((6 : Nat) : Int)) = sp - 8 from by push_cast; ring] at h
    simpa using h
  refine ⟨ramF, ?_, hlenF, hfr, hpc, hc0, hc1, hc2, hc3, hc4, hc5, hc6⟩
  rw [interrupt_dispatch, hA]
  simp only [Option.bind_eq_bind, Option.some_bind]
  rw [hB]
  simp only [Option.some_bind]
  rw [hC]
  simp only [Option.some_bind]
  rw [hD, hrun]
  simp only [Option.some_bind]
  norm_num
  ring

theorem i_ret_spec (s : CPUState) (r0 r1 r2 r3 r4 r5 r6 : Int) (sp : Int)
    (m0 m1 m2 m3 m4 m5 m6 m7 : Int)
    (hram : s.ram.length = 256)
    (hreg : s.reg = [r0, r1, r2, r3, r4, r5, r6, sp])
    (h0 : 0 ≤ sp) (h8 : sp + 8 ≤ 256)
    (hw0 : s.ram[sp.toNat]? = some m0)
    (hw1 : s.ram[(sp + 1).toNat]? = some m1)
    (hw2 : s.ram[(sp + 2).toNat]? = some m2)
    (hw3 : s.ram[(sp + 3).toNat]? = some m3)
    (hw4 : s.ram[(sp + 4).toNat]? = some m4)
    (hw5 : s.ram[(sp + 5).toNat]? = some m5)
    (hw6 : s.ram[(sp + 6).toNat]? = some m6)
    (hw7 : s.ram[(sp + 7).toNat]? = some m7) :
    i_ret s = some { ram := s.ram, reg := [m6, m5, m4, m3, m2, m1, m0, sp + 8],
                     pc := m7, fl := s.fl } := by
  have hp0 := pop_true_spec s m0 r0 r1 r2 r3 r4 r5 r6 sp hreg h0
    (by show sp < (s.ram.length : Int); omega) hw0
  have hg0 : regSet { s with reg := [r0, r1, r2, r3, r4, r5, r6, sp + 1] } ((6 : Nat) : Int) m0 =
      some { s with reg := [r0, r1, r2, r3, r4, r5, m0, sp + 1] } := by
    rw [regSet]
    simp [pySet, pyIdx]
  have hp1 := pop_true_spec { s with reg := [r0, r1, r2, r3, r4, r5, m0, sp + 1] } m1
    r0 r1 r2 r3 r4 r5 m0 (sp + 1) rfl (by omega)
    (by show sp + 1 < (s.ram.length : Int); omega) hw1
  rw [show sp + 1 + 1 = sp + 2 from by ring] at hp1
  have hg1 : regSet { s with reg := [r0, r1, r2, r3, r4, r5, m0, sp + 2] } ((5 : Nat) : Int) m1 =
      some { s with reg := [r0, r1, r2, r3, r4, m1, m0, sp + 2] } := by
    rw [regSet]
    simp [pySet, pyIdx]
  have hp2 := pop_true_spec { s with reg := [r0, r1, r2, r3, r4, m1, m0, sp + 2] } m2
    r0 r1 r2 r3 r4 m1 m0 (sp + 2) rfl (by omega)
    (by show sp + 2 < (s.ram.length : Int); omega) hw2
  rw [show sp + 2 + 1 = sp + 3 from by ring] at hp2
  have hg2 : regSet { s with reg := [r0, r1, r2, r3, r4, m1, m0, sp + 3] } ((4 : Nat) : Int) m2 =
      some { s with reg := [r0, r1, r2, r3, m2, m1, m0, sp + 3] } := by
    rw [regSet]
    simp [pySet, pyIdx]
  have hp3 := pop_true_spec { s with reg := [r0, r1, r2, r3, m2, m1, m0, sp + 3] } m3
    r0 r1 r2 r3 m2 m1 m0 (sp + 3) rfl (by omega)
    (by show sp + 3 < (s.ram.length : Int); omega) hw3
  rw [show sp + 3 + 1 = sp + 4 from by ring] at hp3
  have hg3 : regSet { s with reg := [r0, r1, r2, r3, m2, m1, m0, sp + 4] } ((3 : Nat) : Int) m3 =
      some { s with reg := [r0, r1, r2, m3, m2, m1, m0, sp + 4] } := by
    rw [regSet]
    simp [pySet, pyIdx]
  have hp4 := pop_true_spec { s with reg := [r0, r1, r2, m3, m2, m1, m0, sp + 4] } m4
    r0 r1 r2 m3 m2 m1 m0 (sp + 4) rfl (by omega)
    (by show sp + 4 < (s.ram.length : Int); omega) hw4
  rw [show sp + 4 + 1 = sp + 5 from by ring] at hp4
  have hg4 : regSet { s with reg := [r0, r1, r2, m3, m2, m1, m0, sp + 5] } ((2 : Nat) : Int) m4 =
      some { s with reg := [r0, r1, m4, m3, m2, m1, m0, sp + 5] } := by
    rw [regSet]
    simp [pySet, pyIdx]
  have hp5 := pop_true_spec { s with reg := [r0, r1, m4, m3, m2, m1, m0, sp + 5] } m5
    r0 r1 m4 m3 m2 m1 m0 (sp + 5) rfl (by omega)
    (by show sp + 5 < (s.ram.length : Int); omega) hw5
  rw [show sp + 5 + 1 = sp + 6 from by ring] at hp5
  have hg5 : regSet { s with reg := [r0, r1, m4, m3, m2, m1, m0, sp + 6] } ((1 : Nat) : Int) m5 =
      some { s with reg := [r0, m5, m4, m3, m2, m1, m0, sp + 6] } := by
    rw [regSet]
    simp [pySet, pyIdx]
  have hp6 := pop_true_spec { s with reg := [r0, m5, m4, m3, m2, m1, m0, sp + 6] } m6
    r0 m5 m4 m3 m2 m1 m0 (sp + 6) rfl (by omega)
    (by show sp + 6 < (s.ram.length : Int); omega) hw6
  rw [show sp + 6 + 1 = sp + 7 from by ring] at hp6
  have hg6 : regSet { s with reg := [r0, m5, m4, m3, m2, m1, m0, sp + 7] } ((0 : Nat) : Int) m6 =
      some { s with reg := [m6, m5, m4, m3, m2, m1, m0, sp + 7] } := by
    rw [regSet]
    simp [pySet, pyIdx]
  have hp7 := pop_true_spec { s with reg := [m6, m5, m4, m3, m2, m1, m0, sp + 7] } m7
    m6 m5 m4 m3 m2 m1 m0 (sp + 7) rfl (by omega)
    (by show sp + 7 < (s.ram.length : Int); omega) hw7
  rw [show sp + 7 + 1 = sp + 8 from by ring] at hp7
  dsimp only at hp1 hp2 hp3 hp4 hp5 hp6 hp7
  rw [i_ret, i_ret_loop, hp0]
  simp only [Option.bind_eq_bind, Option.some_bind]
  rw [hg0]
  simp only [Option.bind_eq_bind, Option.some_bind]
  rw [i_ret_loop, hp1]
  simp only [Option.bind_eq_bind, Option.some_bind]
  rw [hg1]
  simp only [Option.bind_eq_bind, Option.some_bind]
  rw [i_ret_loop, hp2]
  simp only [Option.bind_eq_bind, Option.some_bind]
  rw [hg2]
  simp only [Option.bind_eq_bind, Option.some_bind]
  rw [i_ret_loop, hp3]
  simp only [Option.bind_eq_bind, Option.some_bind]
  rw [hg3]
  simp only [Option.bind_eq_bind, Option.some_bind]
  rw [i_ret_loop, hp4]
  simp only [Option.bind_eq_bind, Option.some_bind]
  rw [hg4]
  simp only [Option.bind_eq_bind, Option.some_bind]
  rw [i_ret_loop, hp5]
  simp only [Option.bind_eq_bind, Option.some_bind]
  rw [hg5]
  simp only [Option.bind_eq_bind, Option.some_bind]
  rw [i_ret_loop, hp6]
  simp only [Option.bind_eq_bind, Option.some_bind]
  rw [hg6]
  simp only [Option.bind_eq_bind, Option.some_bind]
  rw [i_ret_loop]
  simp only [Option.bind_eq_bind, Option.some_bind]
  rw [hp7]
  simp only [Option.bind_eq_bind, Option.some_bind]

/-- A state ready for an interrupt on bit 0: IM = IS = 1, SP = 8, the
timer vector at `0xF8` holding 30. -/
def intW : CPUState :=
  { ram := (List.replicate 256 0).set 248 30, reg := [10, 11, 12, 13, 14, 1, 1, 8],
    pc := 50, fl := 0 }

/-- C1 (corrected): dispatching an interrupt and then executing the
interrupt return restores registers 0 through 5, SP and PC to their
pre-interrupt values, and leaves the flags unchanged; register 6 (IS)
however ends at 0 — the value it had after the dispatch cleared it —
not at its pre-interrupt value. -/
theorem interrupt_roundtrip (s : CPUState) (r0 r1 r2 r3 r4 r5 r6 : Int) (sp : Int)
    (i : Nat) (handler : Int)
    (hram : s.ram.length = 256)
    (hreg : s.reg = [r0, r1, r2, r3, r4, r5, r6, sp])
    (h8 : 8 ≤ sp) (h248 : sp ≤ 248) (hi : i < 8)
    (hv : s.ram[248 + i]? = some handler) :
    ((interrupt_dispatch s i).bind i_ret).map (fun t => (t.reg, t.pc, t.fl)) =
      some ([r0, r1, r2, r3, r4, r5, 0, sp], s.pc, s.fl) := by
  obtain ⟨ramF, hrun, hlenF, hfr, hpc, hc0, hc1, hc2, hc3, hc4, hc5, hc6⟩ :=
    interrupt_dispatch_spec s r0 r1 r2 r3 r4 r5 r6 sp i handler hram hreg h8 h248 hi hv
  have e1 : ramF[(sp - 8 + 1).toNat]? = some r5 := by
    rw [show sp - 8 + 1 = sp - 7 from by ring]
    exact hc5
  have e2 : ramF[(sp - 8 + 2).toNat]? = some r4 := by
    rw [show sp - 8 + 2 = sp - 6 from by ring]
    exact hc4
  have e3 : ramF[(sp - 8 + 3).toNat]? = some r3 := by
    rw [show sp - 8 + 3 = sp - 5 from by ring]
    exact hc3
  have e4 : ramF[(sp - 8 + 4).toNat]? = some r2 := by
    rw [show sp - 8 + 4 = sp - 4 from by ring]
    exact hc2
  have e5 : ramF[(sp - 8 + 5).toNat]? = some r1 := by
    rw [show sp - 8 + 5 = sp - 3 from by ring]
    exact hc1
  have e6 : ramF[(sp - 8 + 6).toNat]? = some r0 := by
    rw [show sp - 8 + 6 = sp - 2 from by ring]
    exact hc0
  have e7 : ramF[(sp - 8 + 7).toNat]? = some s.pc := by
    rw [show sp - 8 + 7 = sp - 1 from by ring]
    exact hpc
  have hiret := i_ret_spec
    { ram := ramF, reg := [r0, r1, r2, r3, r4, r5, 0, sp - 8], pc := handler, fl := s.fl }
    r0 r1 r2 r3 r4 r5 0 (sp - 8) 0 r5 r4 r3 r2 r1 r0 s.pc
    hlenF rfl (by omega) (by omega) hc6 e1 e2 e3 e4 e5 e6 e7
  rw [show sp - 8 + 8 = sp from by ring] at hiret
  rw [hrun, Option.some_bind, hiret, Option.map_some']

set_option maxRecDepth 8000 in
/-- The C1 claim as frozen is false: with IS = 1 before the interrupt,
register 6 after the dispatch-and-return round trip holds 0, not its
pre-interrupt value 1. -/
theorem interrupt_roundtrip_counterexample :
    (((interrupt_dispatch intW 0).bind i_ret).map fun t => pyGet t.reg 6) =
      some (some 0) ∧
    pyGet intW.reg 6 = some 1 ∧
    ¬((some (some (0 : Int)) : Option (Option Int)) = some (some 1)) := by
  refine ⟨by decide, by decide, by decide⟩

set_option maxRecDepth 8000 in
/-- Concrete instance of the corrected round trip at `intW`. -/
theorem interrupt_roundtrip_witness :
    ((interrupt_dispatch intW 0).bind i_ret).map (fun t => (t.reg, t.pc, t.fl)) =
      some ([10, 11, 12, 13, 14, 1, 0, 8], 50, 0) := by
  have h := interrupt_roundtrip intW 10 11 12 13 14 1 1 8 0 30
    (by simp [intW]) rfl (by norm_num) (by norm_num) (by norm_num) (by decide)
  exact h

/-- A state with IM = 3 and IS = 3 (two pending interrupt bits). -/
def int3W : CPUState :=
  { ram := (List.replicate 256 0).set 248 30, reg := [0, 0, 0, 0, 0, 3, 3, 8],
    pc := 50, fl := 0 }

/-- C3 (corrected): on the Idle-to-Servicing transition the source
executes `self.reg[IS] = 0`, clearing the entire IS register — every
pending bit, not just bit `i` — and this happens before the handler
address from the vector table is loaded into PC: in the dispatched state
IS is 0 and PC holds the vector entry. -/
theorem is_cleared_on_dispatch (s : CPUState) (r0 r1 r2 r3 r4 r5 r6 : Int) (sp : Int)
    (i : Nat) (handler : Int)
    (hram : s.ram.length = 256)
    (hreg : s.reg = [r0, r1, r2, r3, r4, r5, r6, sp])
    (h8 : 8 ≤ sp) (h248 : sp ≤ 248) (hi : i < 8)
    (hv : s.ram[248 + i]? = some handler) :
    (interrupt_dispatch s i).map (fun t => (pyGet t.reg 6, t.pc)) =
      some (some 0, handler) := by
  obtain ⟨ramF, hrun, _, _, _, _, _, _, _, _, _, _⟩ :=
    interrupt_dispatch_spec s r0 r1 r2 r3 r4 r5 r6 sp i handler hram hreg h8 h248 hi hv
  rw [hrun, Option.map_some']
  simp [pyGet, pyIdx]

set_option maxRecDepth 8000 in
/-- The C3 claim as frozen is false: with IS = 3 and IM = 3, servicing
bit 0 leaves IS = 0 (the whole register is zeroed), not IS = 2 as
clearing only bit 0 would. -/
theorem is_cleared_on_dispatch_counterexample :
    ((interrupts_enabled int3W).map fun t => pyGet t.reg 6) = some (some 0) ∧
    ¬(((interrupts_enabled int3W).map fun t => pyGet t.reg 6) = some (some 2)) := by
  refine ⟨by decide, by decide⟩

set_option maxRecDepth 8000 in
/-- Concrete instance of the corrected IS-clearing behaviour at `intW`. -/
theorem is_cleared_on_dispatch_witness :
    (interrupt_dispatch intW 0).map (fun t => (pyGet t.reg 6, t.pc)) =
      some (some 0, 30) := by
  have h := is_cleared_on_dispatch intW 10 11 12 13 14 1 1 8 0 30
    (by simp [intW]) rfl (by norm_num) (by norm_num) (by norm_num) (by decide)
  exact h

/-- The loop test `(masked >> i) & 1 == 1` of the source agrees with
`Nat.testBit` when the masked value is a natural number. -/
theorem bit_probe (M j : Nat) :
    (Int.land ((M : Int) >>> ((j : Nat) : Int)) 1 = 1) ↔ M.testBit j = true := by
  rw [Int.shiftRight_coe_nat]
  have e : Int.land ((M >>> j : Nat) : Int) 1 = (((M >>> j) &&& 1 : Nat) : Int) := rfl
  rw [e, Nat.testBit_to_div_mod, Nat.and_one_is_mod, Nat.shiftRight_eq_div_pow]
  constructor
  · intro h
    simp only [decide_eq_true_eq]
    exact_mod_cast h
  · intro h
    simp only [decide_eq_true_eq] at h
    exact_mod_cast h

theorem interrupts_loop_none (s : CPUState) (masked : Int) :
    ∀ l : List Nat, (∀ j ∈ l, ¬(Int.land (masked >>> ((j : Nat) : Int)) 1 = 1)) →
      interrupts_loop s masked l = some s := by
  intro l
  induction l with
  | nil => intro _; rw [interrupts_loop]
  | cons x rest ih =>
      intro hall
      rw [interrupts_loop, if_neg (hall x (by simp))]
      exact ih fun j hj => hall j (List.mem_cons_of_mem _ hj)

theorem interrupts_loop_first (s : CPUState) (masked : Int) :
    ∀ (l : List Nat) (i : Nat), List.Pairwise (· < ·) l → i ∈ l →
      Int.land (masked >>> ((i : Nat) : Int)) 1 = 1 →
      (∀ j, j < i → ¬(Int.land (masked >>> ((j : Nat) : Int)) 1 = 1)) →
      interrupts_loop s masked l = interrupt_dispatch s i := by
  intro l
  induction l with
  | nil =>
      intro i _ hmem
      cases hmem
  | cons x rest ih =>
      intro i hpw hmem hbit hlow
      rcases List.mem_cons.mp hmem with rfl | hmem2
      · rw [interrupts_loop, if_pos hbit]
      · have hx : x < i := (List.pairwise_cons.mp hpw).1 i hmem2
        rw [interrupts_loop, if_neg (hlow x hx)]
        exact ih i (List.pairwise_cons.mp hpw).2 hmem2 hbit hlow

/-- C8: an interrupt is dispatched only when some bit is set in both IM
(`reg[5]`) and IS (`reg[6]`): if the mask `IM AND IS` is zero the scan
leaves the state untouched, and when bit `i` is the lowest set bit of
the mask, the scan performs exactly the one dispatch for bit `i` (the
loop breaks afterwards) and the dispatched PC is the handler address
read from the interrupt vector table at memory address `0xF8 + i`. -/
theorem interrupt_masking (s : CPUState) (r0 r1 r2 r3 r4 : Int) (im isv : Nat)
    (sp : Int) (i : Nat) (handler : Int)
    (hram : s.ram.length = 256)
    (hreg : s.reg = [r0, r1, r2, r3, r4, (im : Int), (isv : Int), sp])
    (hisv : isv < 256)
    (h8 : 8 ≤ sp) (h248 : sp ≤ 248)
    (hv : s.ram[248 + i]? = some handler) :
    ((im &&& isv) = 0 → interrupts_enabled s = some s) ∧
    ((im &&& isv).testBit i = true →
      (∀ j, j < i → (im &&& isv).testBit j = false) →
      interrupts_enabled s = interrupt_dispatch s i ∧
      (interrupt_dispatch s i).map (fun t => t.pc) = some handler) := by
  have hmget : pyGet s.reg 5 = some (im : Int) := by
    rw [hreg]
    simp [pyGet, pyIdx]
  have hsget : pyGet s.reg 6 = some (isv : Int) := by
    rw [hreg]
    simp [pyGet, pyIdx]
  have hland : Int.land (im : Int) (isv : Int) = ((im &&& isv : Nat) : Int) := rfl
  have hloop : interrupts_enabled s =
      interrupts_loop s (((im &&& isv : Nat) : Int)) (List.range 8) := by
    rw [interrupts_enabled, hmget]
    simp only [Option.bind_eq_bind, Option.some_bind]
    rw [hsget]
    simp only [Option.some_bind]
    rw [hland]
  constructor
  · intro hM
    rw [hloop, hM]
    refine interrupts_loop_none s _ _ fun j _ => ?_
    rw [Nat.cast_zero, Int.zero_shiftRight']
    decide
  · intro hbit hlow
    have hmask : (im &&& isv) < 256 := by
      have := Nat.and_le_right (n := im) (m := isv)
      omega
    have hi : i < 8 := by
      by_contra hcon
      have h2 : (2 : Nat) ^ 8 ≤ 2 ^ i := Nat.pow_le_pow_right (by omega) (by omega)
      have := Nat.testBit_eq_false_of_lt (show im &&& isv < 2 ^ i by omega)
      rw [this] at hbit
      cases hbit
    have hmain : interrupts_enabled s = interrupt_dispatch s i := by
      rw [hloop]
      exact interrupts_loop_first s _ (List.range 8) i (List.pairwise_lt_range 8)
        (List.mem_range.mpr hi) ((bit_probe _ i).mpr hbit)
        (fun j hj => fun hc => by
          have := (bit_probe _ j).mp hc
          rw [hlow j hj] at this
          cases this)
    refine ⟨hmain, ?_⟩
    obtain ⟨ramF, hrun, _, _, _, _, _, _, _, _, _, _⟩ :=
      interrupt_dispatch_spec s r0 r1 r2 r3 r4 (im : Int) (isv : Int) sp i handler
        hram hreg h8 h248 hi hv
    rw [hrun, Option.map_some']

/-- A state with IM = IS = 2 (bit 1 pending and unmasked) and the vector
entry for bit 1 at `0xF9` holding 77. -/
def int8W : CPUState :=
  { ram := (List.replicate 256 0).set 249 77, reg := [0, 0, 0, 0, 0, 2, 2, 8],
    pc := 9, fl := 0 }

set_option maxRecDepth 8000 in
/-- Concrete instance of the masked-dispatch behaviour: with IM = IS = 2
the scan dispatches exactly bit 1 and loads PC from `0xF8 + 1`. -/
theorem interrupt_masking_witness :
    interrupts_enabled int8W = interrupt_dispatch int8W 1 ∧
    (interrupt_dispatch int8W 1).map (fun t => t.pc) = some 77 := by
  have h := (interrupt_masking int8W 0 0 0 0 0 2 2 8 1 77
    (by simp [int8W]) rfl (by norm_num) (by norm_num) (by norm_num) (by decide)).2
    (by decide) (by intro j hj; interval_cases j; decide)
  exact h

/-! ### CALL and RET -/

/-- C5: CALL pushes the return address `PC + 2` onto the stack (it is
readable at the new `SP`), sets `PC` to the address held in the
operand-selected register, and decrements `SP`; executing RET
immediately afterwards sets `PC` to the original `PC + 2` (the
instruction following the CALL) and restores `SP` to its pre-CALL
value.  The no-collision hypothesis `SP - 1 ≠ PC + 1` keeps the pushed
return address from overwriting the CALL's own operand byte. -/
theorem call_ret_symmetric (s : CPUState) (sp rv X : Int)
    (hram : s.ram.length = 256) (hreg8 : s.reg.length = 8)
    (h7 : pyGet s.reg 7 = some sp) (h1 : 1 ≤ sp) (h256 : sp ≤ 256)
    (hpc0 : 0 ≤ s.pc) (hpcb : s.pc + 1 < 256)
    (hnocol : sp - 1 ≠ s.pc + 1)
    (hop : s.ram[(s.pc + 1).toNat]? = some rv) (hrv0 : 0 ≤ rv) (hrv6 : rv ≤ 6)
    (hX : pyGet s.reg rv = some X) :
    ((call s).bind fun t => ram_read t (sp - 1)) = some (s.pc + 2) ∧
    (call s).map (fun t => (t.pc, pyGet t.reg 7)) = some (X, some (sp - 1)) ∧
    ((call s).bind ret).map (fun t => (t.pc, pyGet t.reg 7)) =
      some (s.pc + 2, some sp) := by
  have hpush := push_internal_spec' s (s.pc + 2) sp hram hreg8 h7 h1 h256
  have hrd : ram_read
      { s with ram := s.ram.set (sp - 1).toNat (s.pc + 2), reg := s.reg.set 7 (sp - 1) }
      (s.pc + 1) = some rv := by
    rw [ram_read]
    rw [pyGet_toNat _ _ (by omega)
      (by dsimp only; rw [List.length_set, hram]; push_cast; omega)]
    dsimp only
    rw [List.getElem?_set_ne (by omega)]
    exact hop
  have hXn : s.reg[rv.toNat]? = some X := by
    rw [pyGet_toNat _ _ hrv0 (by rw [hreg8]; omega)] at hX
    exact hX
  have hXv : pyGet
      ({ s with ram := s.ram.set (sp - 1).toNat (s.pc + 2), reg := s.reg.set 7 (sp - 1) } : CPUState).reg rv = some X := by
    dsimp only
    rw [pyGet_toNat _ _ hrv0 (by rw [List.length_set, hreg8]; omega)]
    rw [List.getElem?_set_ne (by omega)]
    exact hXn
  have hcall : call s =
      some { s with ram := s.ram.set (sp - 1).toNat (s.pc + 2), reg := s.reg.set 7 (sp - 1), pc := X } := by
    rw [call]
    simp only [Option.bind_eq_bind, Option.some_bind]
    rw [hpush]
    simp only [Option.some_bind]
    rw [hrd]
    simp only [Option.some_bind]
    rw [hXv]
    simp only [Option.some_bind]
  have hsp1 : (sp - 1).toNat < s.ram.length := by omega
  have hret : ram_read
      { s with ram := s.ram.set (sp - 1).toNat (s.pc + 2), reg := s.reg.set 7 (sp - 1), pc := X } (sp - 1) = some (s.pc + 2) := by
    rw [ram_read]
    rw [pyGet_toNat _ _ (by omega)
      (by dsimp only; rw [List.length_set, hram]; push_cast; omega)]
    dsimp only
    exact List.getElem?_set_self hsp1
  have h7' : pyGet
      ({ s with ram := s.ram.set (sp - 1).toNat (s.pc + 2), reg := s.reg.set 7 (sp - 1), pc := X } : CPUState).reg 7 = some (sp - 1) := by
    dsimp only
    rw [pyGet_toNat _ _ (by omega) (by rw [List.length_set, hreg8]; omega)]
    rw [show ((7 : Int)).toNat = 7 from rfl]
    exact List.getElem?_set_self (by rw [hreg8]; omega)
  refine ⟨?_, ?_, ?_⟩
  · rw [hcall, Option.some_bind]
    exact hret
  · rw [hcall, Option.map_some']
    rw [h7']
  · have hpop := pop_true_spec'
      { s with ram := s.ram.set (sp - 1).toNat (s.pc + 2), reg := s.reg.set 7 (sp - 1), pc := X } (s.pc + 2) (sp - 1)
      (by dsimp only; rw [List.length_set, hreg8]) h7' (by omega)
      (by dsimp only; rw [List.length_set, hram]; push_cast; omega)
      (by dsimp only; exact List.getElem?_set_self hsp1)
    rw [show sp - 1 + 1 = sp from by ring] at hpop
    rw [hcall, Option.some_bind, ret]
    simp only [Option.bind_eq_bind]
    rw [hpop]
    simp only [Option.some_bind, Option.map_some']
    rw [pyGet_toNat _ _ (by omega) (by rw [List.length_set, List.length_set, hreg8]; omega)]
    rw [show ((7 : Int)).toNat = 7 from rfl]
    rw [List.getElem?_set_self (by rw [List.length_set, hreg8]; omega)]

/-- A state whose CALL operand names register 2, which holds 99. -/
def callW : CPUState :=
  { ram := (List.replicate 256 0).set 1 2, reg := [0, 0, 99, 0, 0, 0, 0, 244],
    pc := 0, fl := 0 }

set_option maxRecDepth 8000 in
/-- Concrete instance of the CALL/RET symmetry at `callW`: CALL jumps to
99 with the return address 2 pushed, and RET comes back to 2 with SP
restored to 244. -/
theorem call_ret_symmetric_witness :
    ((call callW).bind fun t => ram_read t 243) = some 2 ∧
    (call callW).map (fun t => (t.pc, pyGet t.reg 7)) = some (99, some 243) ∧
    ((call callW).bind ret).map (fun t => (t.pc, pyGet t.reg 7)) = some (2, some 244) := by
  have h := call_ret_symmetric callW 244 2 99 (by simp [callW]) rfl rfl
    (by norm_num) (by norm_num) (by decide) (by decide) (by decide) (by decide)
    (by norm_num) (by norm_num) rfl
  exact h

/-! ### The fatal decode path and the bounds of the diagnostic trace -/

theorem pyGet_lt_of_nonneg (l : List Int) (i : Int) (v : Int) (h0 : 0 ≤ i)
    (h : pyGet l i = some v) : i < (l.length : Int) := by
  rw [pyGet, pyIdx, if_pos h0] at h
  by_contra hcon
  rw [if_neg hcon] at h
  simp at h

theorem trace_isSome_iff (s : CPUState) (hram : s.ram.length = 256)
    (hreg8 : s.reg.length = 8) (hpc : 0 ≤ s.pc) :
    (trace s).isSome ↔ s.pc ≤ 253 := by
  constructor
  · intro h
    rw [Option.isSome_iff_exists] at h
    obtain ⟨t, ht⟩ := h
    rw [trace] at ht
    simp only [Option.bind_eq_bind, Option.bind_eq_some] at ht
    obtain ⟨b0, _, b1, _, b2, hb2, _⟩ := ht
    have := pyGet_lt_of_nonneg s.ram (s.pc + 2) b2 (by omega) hb2
    omega
  · intro h
    obtain ⟨v0, v1, v2, v3, v4, v5, v6, v7, hr⟩ := exists_list_eight s.reg hreg8
    have hmapM : (List.range 8).mapM (fun i => pyGet s.reg ((i : Nat) : Int)) =
        some [v0, v1, v2, v3, v4, v5, v6, v7] := by
      rw [hr]
      rfl
    have hb0 : ram_read s s.pc = some (s.ram[s.pc.toNat]) := by
      rw [ram_read, pyGet_toNat _ _ hpc (by omega)]
      exact List.getElem?_eq_getElem (by omega)
    have hb1 : ram_read s (s.pc + 1) = some (s.ram[(s.pc + 1).toNat]) := by
      rw [ram_read, pyGet_toNat _ _ (by omega) (by omega)]
      exact List.getElem?_eq_getElem (by omega)
    have hb2 : ram_read s (s.pc + 2) = some (s.ram[(s.pc + 2).toNat]) := by
      rw [ram_read, pyGet_toNat _ _ (by omega) (by omega)]
      exact List.getElem?_eq_getElem (by omega)
    have htr : trace s = some
        { tracePc := s.pc, byte0 := s.ram[s.pc.toNat], byte1 := s.ram[(s.pc + 1).toNat],
          byte2 := s.ram[(s.pc + 2).toNat], regs := [v0, v1, v2, v3, v4, v5, v6, v7] } := by
      rw [trace]
      simp only [Option.bind_eq_bind]
      rw [hb0]
      simp only [Option.some_bind]
      rw [hb1]
      simp only [Option.some_bind]
      rw [hb2]
      simp only [Option.some_bind]
      rw [hmapM]
      simp only [Option.some_bind]
    exact Option.isSome_iff_exists.mpr ⟨_, htr⟩

/-- A state with an unknown opcode 255 at the last-but-one address,
where the fetch succeeds but the diagnostic trace reads past memory. -/
def unk254W : CPUState :=
  { ram := (List.replicate 256 0).set 254 255, reg := [0, 0, 0, 0, 0, 0, 0, 244],
    pc := 254, fl := 0 }

/-- A state with an unknown opcode 255 at the last address. -/
def unk255W : CPUState :=
  { ram := (List.replicate 256 0).set 255 255, reg := [0, 0, 0, 0, 0, 0, 0, 244],
    pc := 255, fl := 0 }

set_option maxRecDepth 8000 in
/-- C10: the fatal-decode diagnostic is not bounds-safe at the top of
memory: the trace reads `pc`, `pc+1` and `pc+2` unchecked, so for a
nonnegative PC its reads stay inside the 256-byte memory exactly when
`pc ≤ 253`; at PC 254 and 255 the read at `pc+1` or `pc+2` raises
(`trace` returns `none`), and the promised exit is preempted — the run
ends in a raised `IndexError` (`none`), not the fatal-exit outcome. -/
theorem trace_oob :
    (∀ s : CPUState, s.ram.length = 256 → s.reg.length = 8 → 0 ≤ s.pc →
      ((trace s).isSome ↔ s.pc ≤ 253)) ∧
    trace unk254W = none ∧ trace unk255W = none ∧
    run [false] unk254W = none ∧ run [false] unk255W = none := by
  refine ⟨trace_isSome_iff, by decide, by decide, by decide, by decide⟩

set_option maxRecDepth 8000 in
/-- Concrete instance of the trace-bounds fact: at a fresh state with
PC 0 the diagnostic trace is in bounds. -/
theorem trace_oob_witness : (trace stateW).isSome := by
  have h := (trace_oob.1 stateW (List.length_replicate 256 0) rfl (by decide)).mpr
    (by decide)
  exact h

/-- A state with the unknown opcode 255 at address 0. -/
def unkW : CPUState :=
  { ram := (List.replicate 256 0).set 0 255, reg := [0, 0, 0, 0, 0, 0, 0, 244],
    pc := 0, fl := 0 }

/-- C6 (corrected): when the byte fetched at PC is not a key of the
dispatch table, no timer tick fires, no interrupt is pending, and
`PC ≤ 253` (so the diagnostic reads stay in bounds), the run loop prints
the offending PC and the trace (of PC, the next three memory bytes and
all 8 registers) and terminates with `sys.exit(1)` — the fatal outcome —
fetching no further instruction whatever the remaining tick oracle
says. -/
theorem unknown_opcode_fatal (s : CPUState) (ts : List Bool) (isv b : Int)
    (hram : s.ram.length = 256) (hreg8 : s.reg.length = 8)
    (h6 : pyGet s.reg 6 = some isv) (hidle : isv < 1)
    (hpc0 : 0 ≤ s.pc) (hpc : s.pc ≤ 253)
    (hb : ram_read s s.pc = some b) (hunk : b ∉ instructions) :
    (trace s).isSome ∧
    run (false :: ts) s = (trace s).map fun tr => RunOutcome.fatal 1 s.pc tr := by
  have hsome : (trace s).isSome := (trace_isSome_iff s hram hreg8 hpc0).mpr hpc
  refine ⟨hsome, ?_⟩
  obtain ⟨tr, htr⟩ := Option.isSome_iff_exists.mp hsome
  have hb1 : ¬(b = 0b00000001) := fun hbe => hunk (by rw [hbe]; decide)
  have hcyc : cycle false s = some (StepResult.fatal 1 s.pc tr) := by
    simp only [cycle, Option.bind_eq_bind, Option.some_bind,
      if_neg (by decide : ¬(false = true)), h6, if_neg (by omega : ¬(1 ≤ isv)), hb,
      if_neg hb1, if_neg hunk, htr]
  rw [run]
  simp only [Option.bind_eq_bind]
  rw [hcyc]
  simp only [Option.some_bind]
  rw [htr, Option.map_some']

set_option maxRecDepth 8000 in
/-- The C6 claim as frozen is false at the top of memory: at `unk254W`
(unknown opcode at PC 254) the promised print-trace-and-exit does not
happen — the trace read at `pc + 2` raises and the run ends in `none`
(an uncaught `IndexError`), not a fatal-exit outcome. -/
theorem unknown_opcode_fatal_counterexample :
    run [false] unk254W = none ∧ trace unk254W = none :=
  ⟨by decide, by decide⟩

set_option maxRecDepth 8000 in
/-- Concrete instance of the fatal decode path: at `unkW` (unknown
opcode 255 at PC 0) the run ends with exit status 1 and the diagnostic
trace. -/
theorem unknown_opcode_fatal_witness :
    (trace unkW).isSome ∧
    run [false] unkW = (trace unkW).map fun tr => RunOutcome.fatal 1 unkW.pc tr := by
  have h := unknown_opcode_fatal unkW [] 0 255 (by simp [unkW]) rfl (by decide)
    (by norm_num) (by decide) (by decide) (by decide) (by decide)
  exact h

end LS8
